import Mathlib

/-!
Shallow embedding of the buildkit solver scheduler (solver/scheduler.go) and
the exec error definitions (solver/llbsolver/errdefs/exec.go).

Edges and pipes are identified by natural numbers (pointer identity in Go).
The scheduler maps `incoming`/`outgoing` are modelled as total functions from
edge ids to lists of pipe ids (an absent Go map key reads as the empty list,
which matches Go map semantics for reads).  The FIFO wait queue (`next`/`last`
linked list plus the `waitq` membership set) is modelled by a list of edge ids
for the linked list and a list of edge ids, used only through membership, for
the set.
-/

namespace Solver

abbrev EdgeId := Nat
abbrev PipeId := Nat
abbrev CacheKey := Nat
abbrev Selector := Nat

/-- The per-edge status constants from edge.go (referenced by scheduler.go as
`edgeStatusComplete`): Initial, CacheFast, CacheSlow, Complete. -/
inductive EdgeStatus where
  | initial
  | cacheFast
  | cacheSlow
  | complete
deriving DecidableEq, Repr

/-- The payload of a request pipe (`edgeRequest`): the desired state of the
producing edge. -/
structure EdgeRequest where
  desiredState : EdgeStatus
deriving DecidableEq, Repr

/-- A scheduler request pipe (`edgePipe`).  `Target` and `From` are the edge
endpoints (`From = none` for a root pipe).  `senderCompleted` and
`receiverCompleted` model `p.Sender.Status().Completed` and
`p.Receiver.Status().Completed`; `cancelCalled` records that
`p.Receiver.Cancel()` was invoked (the pipe internals live in the pipe
package, outside scheduler.go). -/
structure EdgePipe where
  Target : Option EdgeId
  From : Option EdgeId
  request : EdgeRequest
  senderCompleted : Bool
  receiverCompleted : Bool
  cancelCalled : Bool
deriving DecidableEq, Repr

/-- A cached result handle; only its list of cache keys is observed by
scheduler.go (`d.result.CacheKeys()`). -/
structure ResultHandle where
  cacheKeys : List CacheKey
deriving DecidableEq, Repr

/-- One entry of an edge's dependency array (`dep` in edge.go), restricted to
the fields read by `mergeTo`: accumulated cache keys, the optional resolved
slow cache key, and the optional resolved result. -/
structure DepState where
  keys : List CacheKey
  slowCacheKey : Option CacheKey
  result : Option ResultHandle
deriving DecidableEq, Repr

/-- `CacheKeyWithSelector`.  In Go the selector is a digest string whose zero
value is the empty string; we model selectors as naturals with `0` for the
zero value, which is what `CacheKeyWithSelector{CacheKey: *d.slowCacheKey}`
leaves in place. -/
structure CacheKeyWithSelector where
  CacheKey : CacheKey
  Selector : Selector
deriving DecidableEq, Repr

/-- `expDep`: an index paired with a cache key + selector, accumulated into
`target.secondaryExporters` by `mergeTo`. -/
structure ExpDep where
  index : Nat
  key : CacheKeyWithSelector
deriving DecidableEq, Repr

/-- The per-edge data read or written by scheduler.go: the vertex options
consulted by `mergeTo`, the `keysDidChange` flag consulted by `dispatch`, the
dependency array and the per-dependency selectors from the edge's cache map
(`src.cacheMap.Deps[i].Selector`, modelled as a total function of the index),
and the accumulated `secondaryExporters`. -/
structure EdgeData where
  skipEdgeMerge : Bool
  ignoreCache : Bool
  keysDidChange : Bool
  deps : List DepState
  depSelector : Nat → Selector
  secondaryExporters : List ExpDep

/-- The scheduler's wait queue: the `next … last` linked list of dispatchers
and the `waitq` membership set. -/
structure QueueState where
  queue : List EdgeId
  waitq : List EdgeId
deriving DecidableEq, Repr

/-- `scheduler.signal`: if the edge is not in `waitq`, append a dispatcher for
it at the tail of the linked list and record it in `waitq` (scheduler.go
lines 193-207). -/
def signalQ (q : QueueState) (e : EdgeId) : QueueState :=
  if q.waitq.contains e then q
  else { queue := q.queue ++ [e], waitq := q.waitq ++ [e] }

/-- The dequeue step of `scheduler.loop` (scheduler.go lines 81-90): pop the
head of the linked list, if any, and delete the popped edge from `waitq`. -/
def dequeueQ (q : QueueState) : Option (EdgeId × QueueState) :=
  match q.queue with
  | [] => none
  | e :: rest => some (e, { queue := rest, waitq := q.waitq.erase e })

/-- The queue invariant maintained by `signal` and the loop: the linked list
has no duplicates, the membership set (a Go map, hence duplicate-free) has no
duplicates, and `waitq` holds exactly the edges linked in the list. -/
def QueueInv (q : QueueState) : Prop :=
  q.queue.Nodup ∧ q.waitq.Nodup ∧
    (∀ e ∈ q.waitq, e ∈ q.queue) ∧ ∀ e ∈ q.queue, e ∈ q.waitq

instance (q : QueueState) : Decidable (QueueInv q) := by
  unfold QueueInv; infer_instance

/-- The global scheduler state touched by scheduler.go: the `incoming` and
`outgoing` pipe maps, the pipe store, the per-edge data, the wait queue, and
a fresh-pipe allocator. -/
structure SchedState where
  incoming : EdgeId → List PipeId
  outgoing : EdgeId → List PipeId
  pipes : PipeId → EdgePipe
  edges : EdgeId → EdgeData
  qs : QueueState
  nextPipe : PipeId

/-- The secondary-exporter accumulation loop of `mergeTo` (scheduler.go lines
315-327): for each dependency `i` of the source edge, append an `expDep` for
every accumulated cache key (with the source's selector for that dependency),
for the resolved slow cache key when present (with the zero selector), and for
every cache key of the resolved dependency result when present (again with the
source's selector). -/
def mergeExporters (srcEd : EdgeData) (acc : List ExpDep) : List ExpDep :=
  srcEd.deps.enum.foldl
    (fun acc idp =>
      let i := idp.1
      let d := idp.2
      let acc := d.keys.foldl
        (fun acc k => acc ++ [⟨i, ⟨k, srcEd.depSelector i⟩⟩]) acc
      let acc := match d.slowCacheKey with
        | some sk => acc ++ [⟨i, ⟨sk, 0⟩⟩]
        | none => acc
      match d.result with
      | some r => r.cacheKeys.foldl
          (fun acc dk => acc ++ [⟨i, ⟨dk, srcEd.depSelector i⟩⟩]) acc
      | none => acc)
    acc

/-- The exporter entries contributed by one dependency of the source edge:
one per accumulated cache key, one for the resolved slow cache key when
present, one per cache key of the resolved dependency result when present. -/
def perDepExports (sel : Nat → Selector) (idp : Nat × DepState) : List ExpDep :=
  idp.2.keys.map (fun k => ⟨idp.1, ⟨k, sel idp.1⟩⟩)
    ++ (match idp.2.slowCacheKey with
        | some sk => [⟨idp.1, ⟨sk, 0⟩⟩]
        | none => [])
    ++ (match idp.2.result with
        | some r => r.cacheKeys.map (fun dk => ⟨idp.1, ⟨dk, sel idp.1⟩⟩)
        | none => [])

/-- All exporter entries contributed by the source edge's dependency array,
in loop order. -/
def srcExports (ed : EdgeData) : List ExpDep :=
  (ed.deps.enum.map (perDepExports ed.depSelector)).flatten

/-- `scheduler.mergeTo(target, src)` (scheduler.go lines 289-332).  Returns
whether the merge was performed together with the new scheduler state.  The
skip guards mirror lines 290-295; otherwise the source's incoming pipes are
retargeted and appended to the target's incoming list, the source's outgoing
pipes have their `From` redirected, are appended to the target's outgoing list
and their receivers cancelled, the source is deleted from both maps, the
target is signalled, and the source's per-dependency keys are folded into the
target's secondary exporters. -/
def mergeTo (s : SchedState) (target src : EdgeId) : Bool × SchedState :=
  if (s.edges target).skipEdgeMerge || (s.edges src).skipEdgeMerge then
    (false, s)
  else if !(s.edges target).ignoreCache && (s.edges src).ignoreCache then
    (false, s)
  else
    let incSrc := s.incoming src
    let outSrc := s.outgoing src
    let s1 : SchedState := { s with
      pipes := fun p =>
        let q := s.pipes p
        let q := if incSrc.contains p then { q with Target := some target } else q
        if outSrc.contains p then
          { q with From := some target, cancelCalled := true }
        else q
      incoming := fun x =>
        if x = src then []
        else if x = target then s.incoming target ++ incSrc
        else s.incoming x
      outgoing := fun x =>
        if x = src then []
        else if x = target then s.outgoing target ++ outSrc
        else s.outgoing x }
    let s2 : SchedState := { s1 with qs := signalQ s1.qs target }
    let s3 : SchedState := { s2 with
      edges := fun x =>
        if x = target then
          { s2.edges x with
            secondaryExporters :=
              mergeExporters (s2.edges src) (s2.edges x).secondaryExporters }
        else s2.edges x }
    (true, s3)

/-- The survivor choice of the dispatch merge decision (scheduler.go lines
162-166): `dest, src := origEdge, e`, swapped when
`s.ef.hasOwner(origEdge.edge, e.edge)` holds.  Returns `(dest, src)`. -/
def survivorChoice (hasOwner : EdgeId → EdgeId → Bool) (e origEdge : EdgeId) :
    EdgeId × EdgeId :=
  if hasOwner origEdge e then (e, origEdge) else (origEdge, e)

/-- The survivor choice as the specification sentence words it ("if `origEdge`
is owned by `self`, swap"): swap exactly when `hasOwner(self, origEdge)`.
Written from the spec, to be compared with `survivorChoice` (which is written
from the code). -/
def survivorChoiceSpec (hasOwner : EdgeId → EdgeId → Bool) (e origEdge : EdgeId) :
    EdgeId × EdgeId :=
  if hasOwner e origEdge then (e, origEdge) else (origEdge, e)

/-- Observable calls made by the tail of `scheduler.dispatch`: the arguments
`(dest, src)` of a `mergeTo` call when one was made, the arguments
`(old, new)` of a `s.ef.setEdge` call when one was made, and whether the
post-condition tripwires called `e.markFailed`. -/
structure DispatchReport where
  mergeArgs : Option (EdgeId × EdgeId)
  setEdgeCall : Option (EdgeId × EdgeId)
  markFailed : Bool
deriving DecidableEq, Repr

/-- The tail of `scheduler.dispatch` after `e.unpark` returns (scheduler.go
lines 128-189): prune completed pipes from the `incoming` and `outgoing`
maps, run the index-merge decision when the edge's keys changed, and run the
post-condition tripwires on the pruned lists.  The edge factory's ancestry
and ownership oracles (`edge.isDep`, `ef.hasOwner`) and the answer of
`e.index.LoadOrStore(k, e)` are parameters: `origEdge = some o` means the key
index already mapped the edge's current index key to the distinct edge `o`,
and `origEdge = none` covers both a nil current index key and a fresh store. -/
def dispatchAfterUnpark (isDep hasOwner : EdgeId → EdgeId → Bool)
    (origEdge : Option EdgeId) (s : SchedState) (e : EdgeId) :
    SchedState × DispatchReport :=
  let openIncoming := (s.incoming e).filter fun p => !(s.pipes p).senderCompleted
  let s := { s with
    incoming := fun x => if x = e then openIncoming else s.incoming x }
  let openOutgoing := (s.outgoing e).filter fun p => !(s.pipes p).receiverCompleted
  let s := { s with
    outgoing := fun x => if x = e then openOutgoing else s.outgoing x }
  let step : SchedState × Option (EdgeId × EdgeId) × Option (EdgeId × EdgeId) :=
    if (s.edges e).keysDidChange then
      let inner : SchedState × Option (EdgeId × EdgeId) × Option (EdgeId × EdgeId) :=
        match origEdge with
        | none => (s, none, none)
        | some o =>
          if isDep e o || isDep o e then (s, none, none)
          else
            let ds := survivorChoice hasOwner e o
            let r := mergeTo s ds.1 ds.2
            if r.1 then (r.2, some ds, some (ds.2, ds.1))
            else (r.2, some ds, none)
      let s1 := inner.1
      ({ s1 with
         edges := fun x =>
           if x = e then { s1.edges x with keysDidChange := false }
           else s1.edges x },
       inner.2.1, inner.2.2)
    else (s, none, none)
  let failed :=
    (!openIncoming.isEmpty && openOutgoing.isEmpty) ||
    (openIncoming.isEmpty && !openOutgoing.isEmpty)
  (step.1, ⟨step.2.1, step.2.2, failed⟩)

/-- `scheduler.newPipe(target, from, req)` (scheduler.go lines 246-269):
allocate the pipe, signal the target, register it in `outgoing[from]` when a
source edge is given, and append it to `incoming[target]`.  Returns the new
state and the pipe id. -/
def newPipeS (s : SchedState) (target : EdgeId) (fromE : Option EdgeId)
    (req : EdgeRequest) : SchedState × PipeId :=
  let pid := s.nextPipe
  let p : EdgePipe :=
    { Target := some target, From := fromE, request := req,
      senderCompleted := false, receiverCompleted := false, cancelCalled := false }
  let s := { s with
    pipes := fun q => if q = pid then p else s.pipes q
    nextPipe := pid + 1 }
  let s := { s with qs := signalQ s.qs target }
  let s := match fromE with
    | some f =>
      { s with outgoing := fun x => if x = f then s.outgoing f ++ [pid] else s.outgoing x }
    | none => s
  let s := { s with
    incoming := fun x => if x = target then s.incoming target ++ [pid] else s.incoming x }
  (s, pid)

/-- The synchronous part of `scheduler.build(ctx, edge)` (scheduler.go lines
210-227): resolve the edge through the factory; if unknown, return an error
with the state untouched; otherwise create a root pipe targeting the resolved
edge with no source edge and desired state `complete`, and return its id. -/
def build (getEdge : Nat → Option EdgeId) (s : SchedState) (edge : Nat) :
    SchedState × Except String PipeId :=
  match getEdge edge with
  | none => (s, Except.error "invalid request for build")
  | some e =>
    let r := newPipeS s e none { desiredState := EdgeStatus.complete }
    (r.1, Except.ok r.2)

/-- A cached result value; `clone` marks one application of
`CloneCachedResult`. -/
inductive RVal where
  | base (n : Nat)
  | clone (r : RVal)
deriving DecidableEq, Repr

/-- The observed final status of the root pipe's receiver: the error, if any,
and the result carried by the value. -/
structure RootStatus where
  err : Option String
  result : RVal
deriving DecidableEq, Repr

/-- The return step of `scheduler.build` after the wait channel closes
(scheduler.go lines 239-242): the pipe's error if it completed with one, else
a clone of the cached result carried by the pipe's value. -/
def buildReturn (st : RootStatus) : Except String RVal :=
  match st.err with
  | some e => Except.error e
  | none => Except.ok (RVal.clone st.result)

/-! Concrete states used to exercise the definitions on explicit inputs. -/

/-- A fresh, untouched pipe. -/
def pipe0 : EdgePipe :=
  { Target := none, From := none, request := { desiredState := EdgeStatus.initial },
    senderCompleted := false, receiverCompleted := false, cancelCalled := false }

/-- Edge data with no options set and changed keys. -/
def edgeDataKC : EdgeData :=
  { skipEdgeMerge := false, ignoreCache := false, keysDidChange := true,
    deps := [], depSelector := fun _ => 0, secondaryExporters := [] }

/-- Edge data with no options set and unchanged keys. -/
def edgeDataPlain : EdgeData :=
  { edgeDataKC with keysDidChange := false }

/-- Edge data with the skip-merge option set. -/
def edgeDataSkip : EdgeData :=
  { edgeDataPlain with skipEdgeMerge := true }

/-- Edge data with the ignore-cache option set. -/
def edgeDataIC : EdgeData :=
  { edgeDataPlain with ignoreCache := true }

/-- Source edge data with one dependency carrying two accumulated keys, a
resolved slow key and a resolved result with two cache keys; its cache-map
selector is `7`. -/
def edgeDataSrc : EdgeData :=
  { edgeDataPlain with
    deps := [{ keys := [10, 11], slowCacheKey := some 20,
               result := some { cacheKeys := [30, 31] } }]
    depSelector := fun _ => 7 }

/-- A scheduler state with empty maps, all edges having changed keys. -/
def state0 : SchedState :=
  { incoming := fun _ => [], outgoing := fun _ => [], pipes := fun _ => pipe0,
    edges := fun _ => edgeDataKC, qs := { queue := [], waitq := [] }, nextPipe := 0 }

/-- A state whose edges all carry the skip-merge option. -/
def stateSkip : SchedState :=
  { state0 with edges := fun _ => edgeDataSkip }

/-- A state where edge 0 has ignore-cache unset and edge 1 has it set. -/
def stateIC : SchedState :=
  { state0 with edges := fun x => if x = 1 then edgeDataIC else edgeDataPlain }

/-- A state where edge 1 (the merge source) has pipe 3 incoming and pipe 4
outgoing, with the dependency data of `edgeDataSrc`. -/
def stateMerge : SchedState :=
  { state0 with
    edges := fun x => if x = 1 then edgeDataSrc else edgeDataPlain
    incoming := fun x => if x = 1 then [3] else []
    outgoing := fun x => if x = 1 then [4] else [] }

/-- An ownership oracle under which edge 0 owns edge 1 and nothing else. -/
def hasOwner01 : EdgeId → EdgeId → Bool := fun a b => a == 0 && b == 1

/-- An edge factory answer for the concrete build examples: graph edge 0
resolves to scheduler edge 7, everything else is unknown. -/
def getEdge0 : Nat → Option EdgeId := fun n => if n = 0 then some 7 else none

end Solver

namespace Errdefs

/-- A `solver.Result` reference as it appears in an `ExecError`'s `Inputs`
and `Mounts` slices: handles are identified by naturals and a Go nil entry is
`none`. -/
abbrev ResultRef := Option Nat

/-- `ExecError` (exec.go lines 10-15): the wrapped error, the input and mount
result slices, and the `OwnerBorrowed` flag. -/
structure ExecError where
  errMsg : String
  Inputs : List ResultRef
  Mounts : List ResultRef
  OwnerBorrowed : Bool
deriving DecidableEq, Repr

/-- The deduplication fold shared by the two loops of `ExecError.EachRef`
(exec.go lines 21-48): skip nil entries, skip entries already in the seen
set `m`, and call `fn` on the rest in order.  The accumulator is the ordered
list of handles `fn` has been called on, which is exactly the seen set. -/
def collectRefs (l : List ResultRef) (acc : List Nat) : List Nat :=
  l.foldl
    (fun acc res =>
      match res with
      | none => acc
      | some r => if acc.contains r then acc else acc ++ [r])
    acc

/-- The ordered list of handles `fn` is invoked on by `e.EachRef(fn)`: the
inputs loop followed by the mounts loop, sharing one seen set. -/
def eachRefCalls (e : ExecError) : List Nat :=
  collectRefs e.Mounts (collectRefs e.Inputs [])

/-- `ExecError.Release` (exec.go lines 50-60): a no-op when `OwnerBorrowed`
is already set; otherwise release every handle `EachRef` walks and set
`OwnerBorrowed`.  Returns the ordered list of released handles together with
the updated error. -/
def Release (e : ExecError) : List Nat × ExecError :=
  if e.OwnerBorrowed then ([], e)
  else (eachRefCalls e, { e with OwnerBorrowed := true })

/-- `WithExecErrorWithContext` (exec.go lines 66-76): `none` models a nil
underlying error, in which case no `ExecError` is constructed; otherwise an
`ExecError` owning the given inputs and mounts is returned with
`OwnerBorrowed` left false. -/
def WithExecErrorWithContext (err : Option String)
    (inputs mounts : List ResultRef) : Option ExecError :=
  match err with
  | none => none
  | some msg => some { errMsg := msg, Inputs := inputs, Mounts := mounts,
                       OwnerBorrowed := false }

/-- `WithExecError` (exec.go lines 62-64): delegates to
`WithExecErrorWithContext` with a background context. -/
def WithExecError (err : Option String) (inputs mounts : List ResultRef) :
    Option ExecError :=
  WithExecErrorWithContext err inputs mounts

/-- A concrete exec error with a nil entry and handle 1 duplicated within
`Inputs` and across `Inputs` and `Mounts`. -/
def execErrorEx : ExecError :=
  { errMsg := "x", Inputs := [some 1, none, some 1],
    Mounts := [some 1, some 2], OwnerBorrowed := false }

end Errdefs

namespace Solver

theorem signalQ_signalQ (q : QueueState) (e : EdgeId) :
    signalQ (signalQ q e) e = signalQ q e := by
  by_cases h : e ∈ q.waitq
  · simp [signalQ, h]
  · simp [signalQ, h]

theorem dequeue_inv (q : QueueState) (e₀ : EdgeId) (rest : List EdgeId)
    (hq : q.queue = e₀ :: rest) (h : QueueInv q) :
    QueueInv { queue := rest, waitq := q.waitq.erase e₀ } := by
  obtain ⟨hqn, hwn, hwq, hqw⟩ := h
  have hqn' : (e₀ :: rest).Nodup := hq ▸ hqn
  have hnr : e₀ ∉ rest := (List.nodup_cons.mp hqn').1
  refine ⟨(List.nodup_cons.mp hqn').2, hwn.erase e₀, ?_, ?_⟩
  · intro x hx
    obtain ⟨hxe, hxw⟩ := (hwn.mem_erase_iff).mp hx
    have hxq := hwq x hxw
    rw [hq] at hxq
    rcases List.mem_cons.mp hxq with h0 | h0
    · exact absurd h0 hxe
    · exact h0
  · intro x hx
    have hxw : x ∈ q.waitq := hqw x (by rw [hq]; exact List.mem_cons_of_mem _ hx)
    have hxe : x ≠ e₀ := fun hxe => hnr (hxe ▸ hx)
    exact (hwn.mem_erase_iff).mpr ⟨hxe, hxw⟩

/-- C6: signalling an edge any positive number of times before it is dequeued
has the same effect on the scheduler queue as signalling it once, and under
the queue invariant the signalled edge sits in the FIFO exactly once. -/
theorem signal_idempotent_pending (q : QueueState) (e : EdgeId) (n : Nat) :
    (fun q => signalQ q e)^[n + 1] q = signalQ q e ∧
    (QueueInv q → (signalQ q e).queue.count e = 1) := by
  constructor
  · induction n generalizing q with
    | zero => simp
    | succ m ih =>
      rw [Function.iterate_succ_apply]
      rw [ih (signalQ q e)]
      exact signalQ_signalQ q e
  · intro hinv
    by_cases h : e ∈ q.waitq
    · have hm : e ∈ q.queue := hinv.2.2.1 e h
      simp only [signalQ]
      rw [if_pos (by simpa using h)]
      exact List.count_eq_one_of_mem hinv.1 hm
    · have hnm : e ∉ q.queue := fun hc => h (hinv.2.2.2 e hc)
      simp [signalQ, h, List.count_append, List.count_eq_zero.mpr hnm]

/-- Witness for C6 at a concrete queue: two signals of edge 5 on the empty
queue equal one signal, and edge 5 then sits in the FIFO exactly once. -/
theorem signal_idempotent_pending_witness :
    (fun q => signalQ q 5)^[2] { queue := [], waitq := [] } =
      signalQ { queue := [], waitq := [] } 5 ∧
    (signalQ { queue := [], waitq := [] } 5).queue.count 5 = 1 :=
  ⟨(signal_idempotent_pending { queue := [], waitq := [] } 5 1).1,
   (signal_idempotent_pending { queue := [], waitq := [] } 5 1).2 (by decide)⟩

/-- C8: the queue invariant — `waitq` holds exactly the edges linked in the
FIFO and neither carries duplicates — is preserved by `signal` and by the
dispatch loop's dequeue step, and under it every waiting edge appears in the
FIFO exactly once. -/
theorem waitq_tracks_fifo (q : QueueState) (e : EdgeId) (h : QueueInv q) :
    QueueInv (signalQ q e) ∧
    (∀ e' q', dequeueQ q = some (e', q') → QueueInv q') ∧
    (∀ x ∈ q.waitq, q.queue.count x = 1) := by
  obtain ⟨hqn, hwn, hwq, hqw⟩ := h
  refine ⟨?_, ?_, ?_⟩
  · by_cases hc : e ∈ q.waitq
    · simpa [signalQ, hc] using ⟨hqn, hwn, hwq, hqw⟩
    · have hnq : e ∉ q.queue := fun hx => hc (hqw e hx)
      refine ⟨?_, ?_, ?_, ?_⟩ <;> simp [signalQ, hc, List.nodup_append, hqn, hwn, hnq]
      · intro x hx
        rcases hx with hx | hx
        · exact Or.inl (hwq x hx)
        · exact Or.inr hx
      · intro x hx
        rcases hx with hx | hx
        · exact Or.inl (hqw x hx)
        · exact Or.inr hx
  · intro e' q' hd
    unfold dequeueQ at hd
    cases hq : q.queue with
    | nil => rw [hq] at hd; exact absurd hd (by simp)
    | cons e₀ rest =>
      rw [hq] at hd
      simp only [Option.some.injEq, Prod.mk.injEq] at hd
      rw [← hd.2]
      exact dequeue_inv q e₀ rest hq ⟨hqn, hwn, hwq, hqw⟩
  · intro x hx
    exact List.count_eq_one_of_mem hqn (hwq x hx)

/-- Witness for C8 at a concrete queue satisfying the invariant. -/
theorem waitq_tracks_fifo_witness :
    QueueInv { queue := [1, 2], waitq := [2, 1] } ∧
    (QueueInv (signalQ { queue := [1, 2], waitq := [2, 1] } 3) ∧
     (∀ e' q', dequeueQ { queue := [1, 2], waitq := [2, 1] } = some (e', q') →
        QueueInv q') ∧
     (∀ x ∈ ({ queue := [1, 2], waitq := [2, 1] } : QueueState).waitq,
        ({ queue := [1, 2], waitq := [2, 1] } : QueueState).queue.count x = 1)) :=
  ⟨by decide, waitq_tracks_fifo { queue := [1, 2], waitq := [2, 1] } 3 (by decide)⟩

end Solver

namespace Errdefs

theorem collectRefs_cons_none (l : List ResultRef) (acc : List Nat) :
    collectRefs (none :: l) acc = collectRefs l acc := rfl

theorem collectRefs_cons_some (y : Nat) (l : List ResultRef) (acc : List Nat) :
    collectRefs (some y :: l) acc =
      collectRefs l (if acc.contains y then acc else acc ++ [y]) := rfl

theorem mem_collectRefs (l : List ResultRef) (acc : List Nat) (r : Nat) :
    r ∈ collectRefs l acc ↔ r ∈ acc ∨ some r ∈ l := by
  induction l generalizing acc with
  | nil => simp [collectRefs]
  | cons x xs ih =>
    cases x with
    | none => rw [collectRefs_cons_none]; simp [ih]
    | some y =>
      rw [collectRefs_cons_some]
      by_cases hy : y ∈ acc
      · rw [if_pos (by simpa using hy)]
        rw [ih]
        constructor
        · rintro (h | h)
          · exact Or.inl h
          · exact Or.inr (List.mem_cons_of_mem _ h)
        · rintro (h | h)
          · exact Or.inl h
          · rcases List.mem_cons.mp h with h0 | h0
            · exact Or.inl (by rw [(Option.some.injEq _ _).mp h0]; exact hy)
            · exact Or.inr h0
      · rw [if_neg (by simpa using hy)]
        rw [ih]
        simp only [List.mem_append, List.mem_singleton, List.mem_cons,
          Option.some.injEq]
        tauto

theorem nodup_collectRefs (l : List ResultRef) (acc : List Nat)
    (h : acc.Nodup) : (collectRefs l acc).Nodup := by
  induction l generalizing acc with
  | nil => simpa [collectRefs]
  | cons x xs ih =>
    cases x with
    | none => rw [collectRefs_cons_none]; exact ih acc h
    | some y =>
      rw [collectRefs_cons_some]
      by_cases hy : y ∈ acc
      · rw [if_pos (by simpa using hy)]
        exact ih acc h
      · rw [if_neg (by simpa using hy)]
        exact ih _ (by simp [List.nodup_append, h, hy])

/-- C9: on an `ExecError` whose ownership has not been borrowed, `Release`
releases each distinct non-nil handle of `Inputs` and `Mounts` exactly once
(duplicates within or across the two lists are released once), then sets
`OwnerBorrowed`, and every subsequent `Release` on the resulting error is a
no-op releasing nothing. -/
theorem execError_release (e : ExecError) (h : e.OwnerBorrowed = false) :
    (Release e).1.Nodup ∧
    (∀ r : Nat, r ∈ (Release e).1 ↔ some r ∈ e.Inputs ∨ some r ∈ e.Mounts) ∧
    (Release e).2.OwnerBorrowed = true ∧
    Release (Release e).2 = ([], (Release e).2) := by
  have hrel : Release e = (eachRefCalls e, { e with OwnerBorrowed := true }) := by
    simp [Release, h]
  rw [hrel]
  refine ⟨nodup_collectRefs _ _ (nodup_collectRefs _ _ List.nodup_nil), ?_, rfl, ?_⟩
  · intro r
    unfold eachRefCalls
    rw [mem_collectRefs, mem_collectRefs]
    simp
  · simp [Release]

/-- Witness for C9 on a concrete error with a nil entry and duplicate handles
within and across the two lists: exactly the two distinct handles are
released, in first-seen order, and a second `Release` is a no-op. -/
theorem execError_release_witness :
    (Release execErrorEx).1 = [1, 2] ∧
    (Release execErrorEx).1.Nodup ∧
    (Release execErrorEx).2.OwnerBorrowed = true ∧
    Release (Release execErrorEx).2 = ([], (Release execErrorEx).2) := by
  have h := execError_release execErrorEx rfl
  exact ⟨by decide, h.1, h.2.2.1, h.2.2.2⟩

/-- C10: for every inputs and mounts list, `WithExecError` and
`WithExecErrorWithContext` return nil (`none`) when the underlying error is
nil: no `ExecError` is constructed. -/
theorem withExecError_nil_error (inputs mounts : List ResultRef) :
    WithExecErrorWithContext none inputs mounts = none ∧
    WithExecError none inputs mounts = none :=
  ⟨rfl, rfl⟩

end Errdefs

namespace Solver

/-- C3: `mergeTo(target, src)` returns false with the scheduler state (pipe
maps, pipes, secondary exporters, wait queue) untouched when either edge's
vertex has skip-merge set, or when the target lacks ignore-cache but the
source has it; in all other cases it returns true. -/
theorem mergeTo_guards (s : SchedState) (target src : EdgeId) :
    (((s.edges target).skipEdgeMerge = true ∨ (s.edges src).skipEdgeMerge = true) →
      mergeTo s target src = (false, s)) ∧
    ((s.edges target).skipEdgeMerge = false → (s.edges src).skipEdgeMerge = false →
      (s.edges target).ignoreCache = false → (s.edges src).ignoreCache = true →
      mergeTo s target src = (false, s)) ∧
    ((s.edges target).skipEdgeMerge = false → (s.edges src).skipEdgeMerge = false →
      ((s.edges target).ignoreCache = true ∨ (s.edges src).ignoreCache = false) →
      (mergeTo s target src).1 = true) := by
  refine ⟨?_, ?_, ?_⟩
  · rintro (h | h) <;> simp [mergeTo, h]
  · intro h1 h2 h3 h4
    simp [mergeTo, h1, h2, h3, h4]
  · rintro h1 h2 (h3 | h3) <;> simp [mergeTo, h1, h2, h3]

/-- Witness for C3 at concrete states: a skip-merge pair is skipped with the
state unchanged, an ignore-cache mismatch is skipped with the state
unchanged, and an unencumbered pair merges. -/
theorem mergeTo_guards_witness :
    (stateSkip.edges 0).skipEdgeMerge = true ∧
    mergeTo stateSkip 0 1 = (false, stateSkip) ∧
    ((stateIC.edges 0).ignoreCache = false ∧ (stateIC.edges 1).ignoreCache = true) ∧
    mergeTo stateIC 0 1 = (false, stateIC) ∧
    (mergeTo state0 0 1).1 = true :=
  ⟨rfl,
   (mergeTo_guards stateSkip 0 1).1 (Or.inl rfl),
   ⟨rfl, rfl⟩,
   (mergeTo_guards stateIC 0 1).2.1 rfl rfl rfl rfl,
   (mergeTo_guards state0 0 1).2.2 rfl rfl (Or.inr rfl)⟩

/-- C2: after unpark, once completed pipes are pruned, the dispatcher marks
the edge failed exactly when one (and only one) of the still-open incoming
and still-open outgoing pipe lists is empty. -/
theorem dispatch_tripwire (isDep hasOwner : EdgeId → EdgeId → Bool)
    (origEdge : Option EdgeId) (s : SchedState) (e : EdgeId) :
    (dispatchAfterUnpark isDep hasOwner origEdge s e).2.markFailed = true ↔
      ((s.incoming e).filter (fun p => !(s.pipes p).senderCompleted) = [] ∧
        (s.outgoing e).filter (fun p => !(s.pipes p).receiverCompleted) ≠ []) ∨
      ((s.incoming e).filter (fun p => !(s.pipes p).senderCompleted) ≠ [] ∧
        (s.outgoing e).filter (fun p => !(s.pipes p).receiverCompleted) = []) := by
  have hmf : (dispatchAfterUnpark isDep hasOwner origEdge s e).2.markFailed =
      ((!((s.incoming e).filter (fun p => !(s.pipes p).senderCompleted)).isEmpty &&
        ((s.outgoing e).filter (fun p => !(s.pipes p).receiverCompleted)).isEmpty) ||
       (((s.incoming e).filter (fun p => !(s.pipes p).senderCompleted)).isEmpty &&
        !((s.outgoing e).filter (fun p => !(s.pipes p).receiverCompleted)).isEmpty)) := rfl
  rw [hmf]
  simp only [Bool.or_eq_true, Bool.and_eq_true, Bool.not_eq_true',
    Bool.not_eq_false', List.isEmpty_iff, List.isEmpty_eq_false, ne_eq]
  tauto

end Solver

namespace Solver

/-- C5: when the index maps the edge's current key to another edge `o` and
either edge is a dependency of the other, the merge decision skips entirely:
`mergeTo` is not invoked, `setEdge` is not called, and the only state changes
of the dispatch tail are the pruning of the edge's own pipe lists and the
reset of its `keysDidChange` flag. -/
theorem merge_skipped_on_ancestry (isDep hasOwner : EdgeId → EdgeId → Bool)
    (o : EdgeId) (s : SchedState) (e : EdgeId)
    (hk : (s.edges e).keysDidChange = true)
    (hd : isDep e o = true ∨ isDep o e = true) :
    (dispatchAfterUnpark isDep hasOwner (some o) s e).2.mergeArgs = none ∧
    (dispatchAfterUnpark isDep hasOwner (some o) s e).2.setEdgeCall = none ∧
    (dispatchAfterUnpark isDep hasOwner (some o) s e).1.pipes = s.pipes ∧
    (dispatchAfterUnpark isDep hasOwner (some o) s e).1.qs = s.qs ∧
    (dispatchAfterUnpark isDep hasOwner (some o) s e).1.nextPipe = s.nextPipe ∧
    (∀ x, x ≠ e →
      (dispatchAfterUnpark isDep hasOwner (some o) s e).1.incoming x = s.incoming x) ∧
    (∀ x, x ≠ e →
      (dispatchAfterUnpark isDep hasOwner (some o) s e).1.outgoing x = s.outgoing x) ∧
    (∀ x, x ≠ e →
      (dispatchAfterUnpark isDep hasOwner (some o) s e).1.edges x = s.edges x) ∧
    (dispatchAfterUnpark isDep hasOwner (some o) s e).1.edges e =
      { s.edges e with keysDidChange := false } ∧
    (dispatchAfterUnpark isDep hasOwner (some o) s e).1.incoming e =
      (s.incoming e).filter (fun p => !(s.pipes p).senderCompleted) ∧
    (dispatchAfterUnpark isDep hasOwner (some o) s e).1.outgoing e =
      (s.outgoing e).filter (fun p => !(s.pipes p).receiverCompleted) := by
  have hdep : (isDep e o || isDep o e) = true := by
    rcases hd with h | h <;> simp [h]
  refine ⟨?_, ?_, ?_, ?_, ?_, ?_, ?_, ?_, ?_, ?_, ?_⟩ <;>
    first
      | (intro x hx
         simp [dispatchAfterUnpark, hk, hdep, hx])
      | simp [dispatchAfterUnpark, hk, hdep]

end Solver

namespace Solver

/-- Witness for C5: with an ancestry oracle making edge 1 a dependency of
edge 0, the dispatch tail on edge 0 records no `mergeTo` and no `setEdge`
call, leaves the wait queue alone, leaves other edges' pipe lists alone, and
resets the `keysDidChange` flag. -/
theorem merge_skipped_on_ancestry_witness :
    (state0.edges 0).keysDidChange = true ∧
    (fun a b => a == 0 && b == 1 : EdgeId → EdgeId → Bool) 0 1 = true ∧
    (dispatchAfterUnpark (fun a b => a == 0 && b == 1) (fun _ _ => false)
      (some 1) state0 0).2.mergeArgs = none ∧
    (dispatchAfterUnpark (fun a b => a == 0 && b == 1) (fun _ _ => false)
      (some 1) state0 0).2.setEdgeCall = none ∧
    (dispatchAfterUnpark (fun a b => a == 0 && b == 1) (fun _ _ => false)
      (some 1) state0 0).1.qs = state0.qs ∧
    (dispatchAfterUnpark (fun a b => a == 0 && b == 1) (fun _ _ => false)
      (some 1) state0 0).1.incoming 3 = state0.incoming 3 ∧
    (dispatchAfterUnpark (fun a b => a == 0 && b == 1) (fun _ _ => false)
      (some 1) state0 0).1.edges 0 = { state0.edges 0 with keysDidChange := false } := by
  have h := merge_skipped_on_ancestry (fun a b => a == 0 && b == 1)
    (fun _ _ => false) 1 state0 0 rfl (Or.inl rfl)
  exact ⟨rfl, rfl, h.1, h.2.1, h.2.2.2.1, h.2.2.2.2.2.1 3 (by decide),
    h.2.2.2.2.2.2.2.2.1⟩

end Solver

namespace Solver

theorem dispatch_mergeArgs (isDep hasOwner : EdgeId → EdgeId → Bool)
    (o : EdgeId) (s : SchedState) (e : EdgeId)
    (hk : (s.edges e).keysDidChange = true)
    (hd1 : isDep e o = false) (hd2 : isDep o e = false) :
    (dispatchAfterUnpark isDep hasOwner (some o) s e).2.mergeArgs =
      some (survivorChoice hasOwner e o) := by
  simp only [dispatchAfterUnpark, hk, hd1, hd2, Bool.or_self, Bool.false_eq_true,
    if_false, if_true]
  split <;> rfl

/-- C1 (amended): at the index-merge decision, when the key index maps the
edge's current key to another edge `o` and neither edge depends on the other,
`o` is the merge target and the current edge the source, except that when `o`
owns the current edge (`hasOwner(origEdge, self)`) the roles are swapped, so
the current edge becomes the target and `o` the source. -/
theorem survivor_choice (isDep hasOwner : EdgeId → EdgeId → Bool)
    (o : EdgeId) (s : SchedState) (e : EdgeId)
    (hk : (s.edges e).keysDidChange = true)
    (hd1 : isDep e o = false) (hd2 : isDep o e = false) :
    (hasOwner o e = true →
      (dispatchAfterUnpark isDep hasOwner (some o) s e).2.mergeArgs = some (e, o)) ∧
    (hasOwner o e = false →
      (dispatchAfterUnpark isDep hasOwner (some o) s e).2.mergeArgs = some (o, e)) := by
  constructor <;> intro h <;>
    rw [dispatch_mergeArgs isDep hasOwner o s e hk hd1 hd2] <;>
    simp [survivorChoice, h]

/-- Counterexample to C1 as stated: with an ownership oracle under which the
current edge 0 owns `origEdge` 1 (and not conversely), the claim says the
roles swap so that edge 0 becomes the merge target, but the code checks
`hasOwner(origEdge, self)` and therefore does not swap: the dispatch tail
calls `mergeTo` with target 1 and source 0. -/
theorem survivor_choice_cex :
    (dispatchAfterUnpark (fun _ _ => false) hasOwner01 (some 1) state0 0).2.mergeArgs =
      some (1, 0) ∧
    survivorChoiceSpec hasOwner01 0 1 = (0, 1) ∧
    ((1, 0) : EdgeId × EdgeId) ≠ (0, 1) := by
  refine ⟨?_, by decide, by decide⟩
  rw [dispatch_mergeArgs (fun _ _ => false) hasOwner01 1 state0 0 rfl rfl rfl]
  rfl

/-- Witness for the amended C1 at concrete inputs: with ownership oracle
`hasOwner01` (edge 0 owns edge 1), merging edge 1 (current) against
`origEdge` 0 swaps (edge 1 becomes target), while merging edge 0 (current)
against `origEdge` 1 does not swap (edge 1 stays target). -/
theorem survivor_choice_witness :
    (state0.edges 1).keysDidChange = true ∧
    hasOwner01 0 1 = true ∧
    (dispatchAfterUnpark (fun _ _ => false) hasOwner01 (some 0) state0 1).2.mergeArgs =
      some (1, 0) ∧
    hasOwner01 1 0 = false ∧
    (dispatchAfterUnpark (fun _ _ => false) hasOwner01 (some 1) state0 0).2.mergeArgs =
      some (1, 0) := by
  have h1 := survivor_choice (fun _ _ => false) hasOwner01 0 state0 1 rfl rfl rfl
  have h2 := survivor_choice (fun _ _ => false) hasOwner01 1 state0 0 rfl rfl rfl
  exact ⟨rfl, rfl, h1.1 rfl, rfl, h2.2 rfl⟩

end Solver

namespace Solver

theorem foldl_append_singleton {α β : Type} (f : α → β) (l : List α) (acc : List β) :
    l.foldl (fun a x => a ++ [f x]) acc = acc ++ l.map f := by
  induction l generalizing acc with
  | nil => simp
  | cons x xs ih => simp [ih]

theorem foldl_append_extrude {α β : Type} (f : α → List β)
    (g : List β → α → List β) (hg : ∀ a x, g a x = a ++ f x) (l : List α)
    (acc : List β) : l.foldl g acc = acc ++ (l.map f).flatten := by
  induction l generalizing acc with
  | nil => simp
  | cons x xs ih => simp [hg, ih, List.append_assoc]

theorem mergeExporters_eq (srcEd : EdgeData) (acc : List ExpDep) :
    mergeExporters srcEd acc = acc ++ srcExports srcEd := by
  unfold mergeExporters srcExports
  apply foldl_append_extrude (perDepExports srcEd.depSelector)
  intro a idp
  obtain ⟨i, keys, sk, res⟩ := idp
  cases sk <;> cases res <;>
    simp [perDepExports, foldl_append_singleton, List.append_assoc]

theorem mergeTo_fst (s : SchedState) (target src : EdgeId)
    (h1 : (s.edges target).skipEdgeMerge = false)
    (h2 : (s.edges src).skipEdgeMerge = false)
    (h3 : (s.edges target).ignoreCache = true ∨ (s.edges src).ignoreCache = false) :
    (mergeTo s target src).1 = true := by
  rcases h3 with h | h <;> simp [mergeTo, h1, h2, h]

end Solver

namespace Solver

/-- C4: when `mergeTo(target, src)` succeeds, every incoming pipe of `src` is
retargeted to `target` and appended to `target`'s incoming list, every
outgoing pipe of `src` has `From` set to `target`, is appended to `target`'s
outgoing list and is cancelled, `src` is deleted from both maps, `target` is
signalled, the source's per-dependency cache keys, resolved slow key and
resolved-result keys are appended to `target.secondaryExporters`, and the
dispatcher then redirects the factory mapping from the source's edge to the
survivor via `setEdge`. -/
theorem mergeTo_success_effects (s : SchedState) (target src : EdgeId)
    (hne : target ≠ src)
    (h1 : (s.edges target).skipEdgeMerge = false)
    (h2 : (s.edges src).skipEdgeMerge = false)
    (h3 : (s.edges target).ignoreCache = true ∨ (s.edges src).ignoreCache = false) :
    (mergeTo s target src).1 = true ∧
    (mergeTo s target src).2.incoming target = s.incoming target ++ s.incoming src ∧
    (mergeTo s target src).2.incoming src = [] ∧
    (mergeTo s target src).2.outgoing target = s.outgoing target ++ s.outgoing src ∧
    (mergeTo s target src).2.outgoing src = [] ∧
    (∀ p ∈ s.incoming src, ((mergeTo s target src).2.pipes p).Target = some target) ∧
    (∀ p ∈ s.outgoing src, ((mergeTo s target src).2.pipes p).From = some target ∧
       ((mergeTo s target src).2.pipes p).cancelCalled = true) ∧
    (mergeTo s target src).2.qs = signalQ s.qs target ∧
    ((mergeTo s target src).2.edges target).secondaryExporters =
      (s.edges target).secondaryExporters ++ srcExports (s.edges src) ∧
    (∀ isDep hasOwner : EdgeId → EdgeId → Bool, ∀ (e2 o2 : EdgeId) (s2 : SchedState),
      (s2.edges e2).keysDidChange = true →
      isDep e2 o2 = false → isDep o2 e2 = false →
      (s2.edges (survivorChoice hasOwner e2 o2).1).skipEdgeMerge = false →
      (s2.edges (survivorChoice hasOwner e2 o2).2).skipEdgeMerge = false →
      ((s2.edges (survivorChoice hasOwner e2 o2).1).ignoreCache = true ∨
       (s2.edges (survivorChoice hasOwner e2 o2).2).ignoreCache = false) →
      (dispatchAfterUnpark isDep hasOwner (some o2) s2 e2).2.setEdgeCall =
        some ((survivorChoice hasOwner e2 o2).2, (survivorChoice hasOwner e2 o2).1)) := by
  have hsrc : src ≠ target := Ne.symm hne
  refine ⟨mergeTo_fst s target src h1 h2 h3, ?_, ?_, ?_, ?_, ?_, ?_, ?_, ?_, ?_⟩
  · rcases h3 with h | h <;> simp [mergeTo, h1, h2, h, hne]
  · rcases h3 with h | h <;> simp [mergeTo, h1, h2, h]
  · rcases h3 with h | h <;> simp [mergeTo, h1, h2, h, hne]
  · rcases h3 with h | h <;> simp [mergeTo, h1, h2, h]
  · intro p hp
    rcases h3 with h | h <;>
      (simp [mergeTo, h1, h2, h, hp]; split <;> simp [hp])
  · intro p hp
    rcases h3 with h | h <;> simp [mergeTo, h1, h2, h, hp]
  · rcases h3 with h | h <;> simp [mergeTo, h1, h2, h]
  · rcases h3 with h | h <;>
      simp [mergeTo, h1, h2, h, mergeExporters_eq]
  · intro isDep hasOwner e2 o2 s2 hk hd1 hd2 hm1 hm2 hm3
    simp only [dispatchAfterUnpark, hk, hd1, hd2, Bool.or_self, Bool.false_eq_true,
      if_false, if_true]
    split
    · rfl
    · rename_i hfalse
      exact (hfalse (mergeTo_fst _ _ _ hm1 hm2 hm3)).elim

end Solver

namespace Solver

/-- Witness for C4 on a concrete merge of edge 1 into edge 0, where edge 1
has incoming pipe 3, outgoing pipe 4, and one dependency with keys 10 and 11,
slow key 20, result keys 30 and 31, under selector 7. -/
theorem mergeTo_success_effects_witness :
    ((0 : EdgeId) ≠ 1 ∧ (stateMerge.edges 0).skipEdgeMerge = false ∧
     (stateMerge.edges 1).skipEdgeMerge = false ∧
     (stateMerge.edges 1).ignoreCache = false) ∧
    (mergeTo stateMerge 0 1).1 = true ∧
    (mergeTo stateMerge 0 1).2.incoming 0 =
      stateMerge.incoming 0 ++ stateMerge.incoming 1 ∧
    (mergeTo stateMerge 0 1).2.incoming 1 = [] ∧
    (mergeTo stateMerge 0 1).2.outgoing 0 =
      stateMerge.outgoing 0 ++ stateMerge.outgoing 1 ∧
    (mergeTo stateMerge 0 1).2.outgoing 1 = [] ∧
    ((mergeTo stateMerge 0 1).2.pipes 3).Target = some 0 ∧
    ((mergeTo stateMerge 0 1).2.pipes 4).From = some 0 ∧
    ((mergeTo stateMerge 0 1).2.pipes 4).cancelCalled = true ∧
    (mergeTo stateMerge 0 1).2.qs = signalQ stateMerge.qs 0 ∧
    ((mergeTo stateMerge 0 1).2.edges 0).secondaryExporters =
      (stateMerge.edges 0).secondaryExporters ++ srcExports (stateMerge.edges 1) ∧
    srcExports (stateMerge.edges 1) =
      [⟨0, ⟨10, 7⟩⟩, ⟨0, ⟨11, 7⟩⟩, ⟨0, ⟨20, 0⟩⟩, ⟨0, ⟨30, 7⟩⟩, ⟨0, ⟨31, 7⟩⟩] ∧
    (dispatchAfterUnpark (fun _ _ => false) (fun _ _ => false) (some 1)
      state0 0).2.setEdgeCall = some (0, 1) := by
  have h := mergeTo_success_effects stateMerge 0 1 (by decide) rfl rfl (Or.inr rfl)
  refine ⟨⟨by decide, rfl, rfl, rfl⟩, h.1, h.2.1, h.2.2.1, h.2.2.2.1, h.2.2.2.2.1,
    h.2.2.2.2.2.1 3 (by decide), (h.2.2.2.2.2.2.1 4 (by decide)).1,
    (h.2.2.2.2.2.2.1 4 (by decide)).2, h.2.2.2.2.2.2.2.1, h.2.2.2.2.2.2.2.2.1,
    by decide, ?_⟩
  exact h.2.2.2.2.2.2.2.2.2 (fun _ _ => false) (fun _ _ => false) 0 1 state0
    rfl rfl rfl rfl rfl (Or.inr rfl)

end Solver

namespace Solver

/-- C7: `build` resolves the edge through the factory; when the edge is
unknown it returns an error with the scheduler state untouched and no pipe
created; otherwise it creates a root pipe (no source edge) targeting the
resolved edge whose request desires the complete state, appends it to the
target's incoming list, signals the target, and returns its id.  Once the
pipe completes, the returned value is its error when it completed with one,
else a clone of the cached result carried by its value. -/
theorem build_props (getEdge : Nat → Option EdgeId) (s : SchedState) (edge : Nat) :
    (getEdge edge = none →
      build getEdge s edge = (s, Except.error "invalid request for build")) ∧
    (∀ e, getEdge edge = some e →
      (build getEdge s edge).2 = Except.ok s.nextPipe ∧
      ((build getEdge s edge).1.pipes s.nextPipe).Target = some e ∧
      ((build getEdge s edge).1.pipes s.nextPipe).From = none ∧
      ((build getEdge s edge).1.pipes s.nextPipe).request.desiredState =
        EdgeStatus.complete ∧
      (build getEdge s edge).1.incoming e = s.incoming e ++ [s.nextPipe] ∧
      (build getEdge s edge).1.qs = signalQ s.qs e ∧
      (build getEdge s edge).1.nextPipe = s.nextPipe + 1) ∧
    (∀ st : RootStatus,
      (∀ msg, st.err = some msg → buildReturn st = Except.error msg) ∧
      (st.err = none → buildReturn st = Except.ok (RVal.clone st.result))) := by
  refine ⟨?_, ?_, ?_⟩
  · intro h
    simp [build, h]
  · intro e h
    refine ⟨?_, ?_, ?_, ?_, ?_, ?_, ?_⟩ <;> simp [build, h, newPipeS]
  · intro st
    constructor
    · intro msg h
      simp [buildReturn, h]
    · intro h
      simp [buildReturn, h]

/-- Witness for C7: with the factory answering edge 7 for graph edge 0 and
unknown for graph edge 1, building edge 1 errors with the state untouched,
and building edge 0 creates root pipe 0 targeting edge 7 with desired state
complete; a completed status with an error returns it, one without returns a
clone of the carried result. -/
theorem build_props_witness :
    getEdge0 1 = none ∧
    build getEdge0 state0 1 = (state0, Except.error "invalid request for build") ∧
    getEdge0 0 = some 7 ∧
    (build getEdge0 state0 0).2 = Except.ok 0 ∧
    ((build getEdge0 state0 0).1.pipes 0).Target = some 7 ∧
    ((build getEdge0 state0 0).1.pipes 0).From = none ∧
    ((build getEdge0 state0 0).1.pipes 0).request.desiredState = EdgeStatus.complete ∧
    (build getEdge0 state0 0).1.incoming 7 = [0] ∧
    (build getEdge0 state0 0).1.qs = signalQ state0.qs 7 ∧
    buildReturn { err := some "boom", result := RVal.base 3 } =
      Except.error "boom" ∧
    buildReturn { err := none, result := RVal.base 3 } =
      Except.ok (RVal.clone (RVal.base 3)) := by
  have h := build_props getEdge0 state0 1
  have h0 := build_props getEdge0 state0 0
  refine ⟨rfl, h.1 rfl, rfl, (h0.2.1 7 rfl).1, (h0.2.1 7 rfl).2.1,
    (h0.2.1 7 rfl).2.2.1, (h0.2.1 7 rfl).2.2.2.1, ?_, (h0.2.1 7 rfl).2.2.2.2.2.1,
    (h0.2.2 { err := some "boom", result := RVal.base 3 }).1 "boom" rfl,
    (h0.2.2 { err := none, result := RVal.base 3 }).2 rfl⟩
  have h7 := (h0.2.1 7 rfl).2.2.2.2.1
  simpa [state0] using h7

end Solver
